import Mathlib

/-!
Shallow embedding of `crn.py`, a small chemical-reaction-network parser and
mass-action rate-equation renderer, together with theorems settling the
specification claims about it.

Strings are embedded as `List Char` (`Str`); Python tuples of complexes become
pairs of lists; Python dicts used as accumulators become association lists
(their iteration order never matters in the source, because every enumeration
is wrapped in `sorted(...)`); Python `sorted` becomes a stable insertion sort
with the Boolean rendering of Python's tuple/string comparison; Python assert
failures become `Except.error`.
-/

namespace CRN

/-- Embedded Python strings: lists of characters. -/
abbrev Str := List Char

/-- A term of a complex: `(species, coefficient)`, as returned by `parse_term`. -/
abbrev Trm := Str × Nat

/-- One side of a reaction: the tuple of terms produced by `parse_complex`. -/
abbrev Cplx := List Trm

/-- A directed reaction `(src, dst)`. -/
abbrev Reaction := Cplx × Cplx

/-! ### Python comparison operators

Python compares strings lexicographically by code point and tuples
lexicographically componentwise; these Boolean functions embed the `<`
used by `sorted` on the tuple shapes occurring in `crn.py`. -/

/-- Python `<` on strings: lexicographic by character code. -/
def strLtB : Str → Str → Bool
  | [], [] => false
  | [], _ :: _ => true
  | _ :: _, [] => false
  | a :: as, b :: bs => if a < b then true else if b < a then false else strLtB as bs

/-- Python `<` on `(species, coefficient)` pairs: lexicographic. -/
def termLtB (t u : Trm) : Bool :=
  strLtB t.1 u.1 || (t.1 = u.1 && t.2 < u.2)

/-- Python `<` on complexes (tuples of terms): lexicographic. -/
def cplxLtB : Cplx → Cplx → Bool
  | [], [] => false
  | [], _ :: _ => true
  | _ :: _, [] => false
  | t :: ts, u :: us => if termLtB t u then true else if termLtB u t then false else cplxLtB ts us

/-- Python `<` on reactions (pairs of complexes): lexicographic. -/
def rxnLtB (r s : Reaction) : Bool :=
  cplxLtB r.1 s.1 || (!cplxLtB r.1 s.1 && !cplxLtB s.1 r.1 && cplxLtB r.2 s.2)

/-- `≤` for terms, as used by the stable sort embedding `sorted`. -/
def termLeB (t u : Trm) : Bool := !termLtB u t

/-- `≤` for reactions. -/
def rxnLeB (r s : Reaction) : Bool := !rxnLtB s r

/-- Python `<` on `(factor, signed coefficient)` dict items. -/
def factLtB (p q : Str × Int) : Bool :=
  strLtB p.1 q.1 || (p.1 = q.1 && p.2 < q.2)

/-- `≤` for `(factor, signed coefficient)` dict items. -/
def factLeB (p q : Str × Int) : Bool := !factLtB q p

/-- `≤` on `(species, dict)` items of the outer accumulator, compared by key
(keys are distinct, so Python never reaches the dict component). -/
def symLeB {α : Type} (p q : Str × α) : Bool := !strLtB q.1 p.1

/-! ### Stable sorting (Python `sorted`) -/

/-- Insert `a` before the first element `b` with `le a b` (stable insertion). -/
def insertLe {α : Type} (le : α → α → Bool) (a : α) : List α → List α
  | [] => [a]
  | b :: l => if le a b then a :: b :: l else b :: insertLe le a l

/-- Stable insertion sort; with `le` the negation of Python's `>`, this is the
unique stable nondecreasing reordering, i.e. Python's `sorted`. -/
def isort {α : Type} (le : α → α → Bool) : List α → List α
  | [] => []
  | a :: l => insertLe le a (isort le l)

/-! ### Parsing (`parse_term`, `parse_complex`, `parse_equation`, `parse_CRN`) -/

/-- The two assertion failures the source can raise while parsing. -/
inductive Err where
  | missingArrow
  | malformedTerm
deriving DecidableEq

/-- Python `str.isspace` on the characters `strip()` removes. -/
def isPySpace (c : Char) : Bool :=
  c = ' ' || c = '\t' || c = '\n' || c = '\x0d' || c = '\x0b' || c = '\x0c'

/-- Python `s.strip()`. -/
def pyStrip (s : Str) : Str :=
  ((s.dropWhile isPySpace).reverse.dropWhile isPySpace).reverse

/-- Python `int(...)` on a nonempty string of decimal digits. -/
def digitsVal (s : Str) : Nat :=
  s.foldl (fun a c => 10 * a + (c.toNat - 48)) 0

/-- `parse_term`: strip, take the leading digit run as the coefficient
(default 1), the rest is the species; assert the species is nonempty. -/
def parse_term (s : Str) : Except Err Trm :=
  let t := pyStrip s
  let coeff := t.takeWhile Char.isDigit
  let species := t.dropWhile Char.isDigit
  if species = [] then .error .malformedTerm
  else .ok (species, if coeff = [] then 1 else digitsVal coeff)

/-- Python `s.split(sep)` for the single-character separator `sep`. -/
def splitChar (sep : Char) : Str → List Str
  | [] => [[]]
  | c :: rest =>
    let ps := splitChar sep rest
    if c = sep then [] :: ps
    else match ps with
      | p :: tail => (c :: p) :: tail
      | [] => [[c]]

/-- Left-to-right effectful map over a list, the embedding of a Python list
comprehension whose element expression may raise. -/
def mapExcept {α β : Type} (f : α → Except Err β) : List α → Except Err (List β)
  | [] => .ok []
  | x :: xs => do
    let y ← f x
    let ys ← mapExcept f xs
    return y :: ys

/-- `parse_complex`: split on `+`, parse each piece, sort by `(species, coeff)`. -/
def parse_complex (s : Str) : Except Err Cplx := do
  let ts ← mapExcept parse_term (splitChar '+' s)
  return isort termLeB ts

/-- Does `pat` start the string? -/
def startsWithL : Str → Str → Bool
  | [], _ => true
  | _ :: _, [] => false
  | p :: ps, c :: cs => p = c && startsWithL ps cs

/-- Python `pat in s` (substring test). -/
def containsSub (pat : Str) : Str → Bool
  | [] => startsWithL pat []
  | c :: rest => startsWithL pat (c :: rest) || containsSub pat rest

/-- Python `s.split(sep, 1)` when `sep` occurs in `s`: the part before the
first occurrence and the part after it. -/
def splitFirst (pat : Str) : Str → Option (Str × Str)
  | [] => if startsWithL pat [] then some ([], []) else none
  | c :: rest =>
    if startsWithL pat (c :: rest) then some ([], List.drop pat.length (c :: rest))
    else match splitFirst pat rest with
      | some (l, r) => some (c :: l, r)
      | none => none

/-- The reversible arrow `<->`. -/
def arrowRev : Str := "<->".data

/-- The irreversible arrow `->`. -/
def arrowFwd : Str := "->".data

/-- `parse_equation`: choose the arrow (preferring `<->`), `chop` the line at
its first occurrence (asserting it occurs), parse both sides, and expand a
reversible equation into the two directed reactions. -/
def parse_equation (s : Str) : Except Err (List Reaction) :=
  let rev := containsSub arrowRev s
  let arrow := if rev then arrowRev else arrowFwd
  match splitFirst arrow s with
  | none => .error .missingArrow
  | some (l, r) => do
    let src ← parse_complex l
    let dst ← parse_complex r
    if rev then return [(src, dst), (dst, src)] else return [(src, dst)]

/-- `parse_CRN` followed by the `CRN` constructor: parse every line, flatten,
and store the reactions sorted. -/
def parse_CRN (lines : List Str) : Except Err (List Reaction) := do
  let rss ← mapExcept parse_equation lines
  return isort rxnLeB rss.flatten

/-! ### Rendering -/

/-- Python `sep.join(strs)`. -/
def joinSep (sep : Str) : List Str → Str
  | [] => []
  | [x] => x
  | x :: y :: xs => x ++ sep ++ joinSep sep (y :: xs)

/-- Python `str(n)` for a natural number. -/
def natStr (n : Nat) : Str := Nat.toDigits 10 n

/-- Python `str(n)` for an integer. -/
def intStr : Int → Str
  | .ofNat n => natStr n
  | .negSucc m => '-' :: natStr (m + 1)

/-- `show_complex`: terms joined by `" + "`, eliding a coefficient of 1. -/
def show_complex (c : Cplx) : Str :=
  joinSep (" + ".data) (c.map fun t => (if t.2 = 1 then [] else natStr t.2) ++ t.1)

/-- `show_reaction`: `"src -> dst"`. -/
def show_reaction (r : Reaction) : Str :=
  show_complex r.1 ++ (" -> ".data) ++ show_complex r.2

/-- `CRN.__repr__`: one line per stored reaction. -/
def crn_repr (rs : List Reaction) : Str :=
  joinSep ("\n".data) (rs.map show_reaction)

/-- `pow`: `s` when the exponent is 1, else `s^n`. -/
def pow (s : Str) (n : Nat) : Str :=
  if n = 1 then s else s ++ ('^' :: natStr n)

/-- `mul`: `s` when the coefficient is 1, else `n*s`. -/
def mul (s : Str) (n : Int) : Str :=
  if n = 1 then s else intStr n ++ ('*' :: s)

/-! ### The rate-equation builder -/

/-- `terms[factor] = terms.get(factor, 0) + coeff` on the inner dict. -/
def dictAdd (m : List (Str × Int)) (k : Str) (v : Int) : List (Str × Int) :=
  match m with
  | [] => [(k, v)]
  | (k2, v2) :: rest => if k2 = k then (k2, v2 + v) :: rest else (k2, v2) :: dictAdd rest k v

/-- The nested accumulator `rhses : species -> factor -> signed coefficient`. -/
abbrev Rhses := List (Str × List (Str × Int))

/-- `add(sym, factor, coeff)`: `rhses.setdefault(sym, {})` then `dictAdd`. -/
def rhsesAdd (m : Rhses) (sym factor : Str) (coeff : Int) : Rhses :=
  match m with
  | [] => [(sym, dictAdd [] factor coeff)]
  | (s2, t2) :: rest =>
    if s2 = sym then (s2, dictAdd t2 factor coeff) :: rest
    else (s2, t2) :: rhsesAdd rest sym factor coeff

/-- The propensity factor string `'(%s)' % ' '.join(pow(sym, n) ...)` of a
source complex (no rate-constant label: the source fixes `k = 1`). -/
def factorOf (src : Cplx) : Str :=
  ('(' :: joinSep (" ".data) ((isort termLeB src).map fun t => pow t.1 t.2)) ++ (")".data)

/-- The body of the `for src, dst in self.reactions` loop: subtract `n * k`
for source occurrences, add `n * k` for destination occurrences. -/
def reactStep (m : Rhses) (r : Reaction) : Rhses :=
  let k : Int := 1
  let factor := factorOf r.1
  let m1 := r.1.foldl (fun acc t => rhsesAdd acc t.1 factor (-(t.2 : Int) * k)) m
  r.2.foldl (fun acc t => rhsesAdd acc t.1 factor ((t.2 : Int) * k)) m1

/-- The fully accumulated `rhses` map of a reaction list. -/
def buildRhses (rs : List Reaction) : Rhses :=
  rs.foldl reactStep []

/-- The `(factor, coefficient)` items of one species in output order:
`sorted(terms.items())` with the zero coefficients dropped. -/
def lineItems (terms : List (Str × Int)) : List (Str × Int) :=
  (isort factLeB terms).filter fun p => p.2 != 0

/-- `total`: the rendered right-hand side of one species. -/
def total (terms : List (Str × Int)) : Str :=
  joinSep (" + ".data) ((lineItems terms).map fun p => mul p.1 p.2)

/-- `CRN.rate_equation`: one `d<sym>/dt = <total>` line per species, species
sorted ascending. -/
def rate_equation (rs : List Reaction) : Str :=
  joinSep ("\n".data)
    ((isort symLeB (buildRhses rs)).map fun p => ('d' :: p.1) ++ ("/dt = ".data) ++ total p.2)

/-- The whole pipeline: parse, then render the network and its rate equation. -/
def pipeline (lines : List Str) : Except Err (Str × Str) :=
  (parse_CRN lines).map fun rs => (crn_repr rs, rate_equation rs)

/-! ### Lemmas about the stable sort -/

theorem perm_insertLe {α : Type} (le : α → α → Bool) (a : α) :
    ∀ l : List α, (insertLe le a l).Perm (a :: l)
  | [] => List.Perm.refl _
  | b :: l => by
    simp only [insertLe]
    split
    · exact List.Perm.refl _
    · exact ((perm_insertLe le a l).cons b).trans (List.Perm.swap a b l)

theorem perm_isort {α : Type} (le : α → α → Bool) :
    ∀ l : List α, (isort le l).Perm l
  | [] => List.Perm.refl _
  | a :: l => (perm_insertLe le a (isort le l)).trans ((perm_isort le l).cons a)

theorem pairwise_insertLe {α : Type} (le : α → α → Bool)
    (htr : ∀ a b c, le a b = true → le b c = true → le a c = true)
    (hto : ∀ a b, le a b = true ∨ le b a = true) (a : α) :
    ∀ l : List α, l.Pairwise (fun x y => le x y = true) →
      (insertLe le a l).Pairwise (fun x y => le x y = true)
  | [], _ => by simp [insertLe]
  | b :: l, h => by
    rw [List.pairwise_cons] at h
    simp only [insertLe]
    split
    · rename_i hab
      rw [List.pairwise_cons]
      refine ⟨?_, List.pairwise_cons.mpr h⟩
      intro x hx
      rcases List.mem_cons.mp hx with hx | hx
      · exact hx ▸ hab
      · exact htr a b x hab (h.1 x hx)
    · rename_i hab
      have hba : le b a = true := by
        rcases hto a b with h1 | h1
        · exact absurd h1 hab
        · exact h1
      rw [List.pairwise_cons]
      refine ⟨?_, pairwise_insertLe le htr hto a l h.2⟩
      intro x hx
      rcases List.mem_cons.mp ((perm_insertLe le a l).mem_iff.mp hx) with hx | hx
      · exact hx ▸ hba
      · exact h.1 x hx

theorem pairwise_isort {α : Type} (le : α → α → Bool)
    (htr : ∀ a b c, le a b = true → le b c = true → le a c = true)
    (hto : ∀ a b, le a b = true ∨ le b a = true) :
    ∀ l : List α, (isort le l).Pairwise (fun x y => le x y = true)
  | [] => List.Pairwise.nil
  | a :: l => pairwise_insertLe le htr hto a (isort le l) (pairwise_isort le htr hto l)

/-! ### The strict comparisons are strict total orders -/

theorem strLtB_irrefl : ∀ a : Str, strLtB a a = false
  | [] => rfl
  | c :: cs => by simp [strLtB, strLtB_irrefl cs]

theorem strLtB_conn : ∀ a b : Str, strLtB a b = false → strLtB b a = false → a = b
  | [], [], _, _ => rfl
  | [], _ :: _, h, _ => by simp [strLtB] at h
  | _ :: _, [], _, h => by simp [strLtB] at h
  | a :: as, b :: bs, h1, h2 => by
    simp only [strLtB] at h1 h2
    rcases lt_trichotomy a b with hab | hab | hab
    · simp [hab] at h1
    · subst hab
      simp only [lt_irrefl, if_false] at h1 h2
      rw [strLtB_conn as bs h1 h2]
    · simp [hab, lt_asymm hab] at h2

theorem strLtB_trans : ∀ a b c : Str, strLtB a b = true → strLtB b c = true → strLtB a c = true
  | [], b, [], _, h2 => by cases b <;> simp [strLtB] at h2
  | [], _, _ :: _, _, _ => rfl
  | _ :: _, [], _, h1, _ => by simp [strLtB] at h1
  | _ :: _, _ :: _, [], _, h2 => by simp [strLtB] at h2
  | a :: as, b :: bs, c :: cs, h1, h2 => by
    simp only [strLtB] at h1 h2 ⊢
    rcases lt_trichotomy a b with hab | hab | hab
    · rcases lt_trichotomy b c with hbc | hbc | hbc
      · simp [lt_trans hab hbc]
      · subst hbc; simp [hab]
      · simp [hbc, lt_asymm hbc] at h2
    · subst hab
      rcases lt_trichotomy a c with hac | hac | hac
      · simp [hac]
      · subst hac
        simp only [lt_irrefl, if_false] at h1 h2 ⊢
        exact strLtB_trans as bs cs h1 h2
      · simp [hac, lt_asymm hac] at h2
    · simp [hab, lt_asymm hab] at h1

theorem factLtB_irrefl (p : Str × Int) : factLtB p p = false := by
  simp [factLtB, strLtB_irrefl]

theorem factLtB_conn (p q : Str × Int) (h1 : factLtB p q = false) (h2 : factLtB q p = false) :
    p = q := by
  simp only [factLtB, Bool.or_eq_false_iff, Bool.and_eq_false_iff] at h1 h2
  have hs : p.1 = q.1 := strLtB_conn p.1 q.1 h1.1 h2.1
  rcases h1.2 with h | h
  · simp [hs] at h
  · rcases h2.2 with h2a | h2a
    · simp [hs] at h2a
    · have : p.2 = q.2 := by
        simp only [decide_eq_false_iff_not, not_lt] at h h2a
        exact le_antisymm h2a h
      exact Prod.ext hs this

theorem factLtB_trans (p q r : Str × Int) (h1 : factLtB p q = true) (h2 : factLtB q r = true) :
    factLtB p r = true := by
  simp only [factLtB, Bool.or_eq_true, Bool.and_eq_true, decide_eq_true_eq] at h1 h2 ⊢
  rcases h1 with h1 | ⟨h1e, h1l⟩
  · rcases h2 with h2 | ⟨h2e, h2l⟩
    · exact Or.inl (strLtB_trans _ _ _ h1 h2)
    · exact Or.inl (h2e ▸ h1)
  · rcases h2 with h2 | ⟨h2e, h2l⟩
    · exact Or.inl (h1e ▸ h2)
    · exact Or.inr ⟨h1e.trans h2e, lt_trans h1l h2l⟩

theorem factLeB_trans (p q r : Str × Int) (h1 : factLeB p q = true) (h2 : factLeB q r = true) :
    factLeB p r = true := by
  simp only [factLeB, Bool.not_eq_true'] at h1 h2 ⊢
  by_contra hc
  rw [Bool.not_eq_false] at hc
  rcases h3 : factLtB q r with _ | _
  · have hqr := factLtB_conn q r h3 h2
    subst hqr
    rw [hc] at h1
    exact Bool.noConfusion h1
  · have := factLtB_trans q r p h3 hc
    rw [this] at h1
    exact Bool.noConfusion h1

theorem factLeB_total (p q : Str × Int) : factLeB p q = true ∨ factLeB q p = true := by
  simp only [factLeB, Bool.not_eq_true']
  rcases hqp : factLtB q p with _ | _
  · exact Or.inl rfl
  · rcases hpq : factLtB p q with _ | _
    · exact Or.inr rfl
    · have := factLtB_trans p q p hpq hqp
      rw [factLtB_irrefl] at this
      exact Bool.noConfusion this

/-! ### The accumulator keeps at most one entry per key -/

theorem dictAdd_key_mem (k : Str) (v : Int) :
    ∀ (m : List (Str × Int)) (x : Str), x ∈ (dictAdd m k v).map Prod.fst →
      x ∈ m.map Prod.fst ∨ x = k
  | [], x, h => by
    simp only [dictAdd, List.map_cons, List.map_nil, List.mem_singleton] at h
    exact Or.inr h
  | (k2, v2) :: rest, x, h => by
    simp only [dictAdd] at h
    split at h
    · simp only [List.map_cons, List.mem_cons] at h ⊢
      exact Or.inl h
    · simp only [List.map_cons, List.mem_cons] at h ⊢
      rcases h with h | h
      · exact Or.inl (Or.inl h)
      · rcases dictAdd_key_mem k v rest x h with h2 | h2
        · exact Or.inl (Or.inr h2)
        · exact Or.inr h2

theorem dictAdd_nodup_keys (k : Str) (v : Int) :
    ∀ m : List (Str × Int), (m.map Prod.fst).Nodup → ((dictAdd m k v).map Prod.fst).Nodup
  | [], _ => by simp [dictAdd]
  | (k2, v2) :: rest, h => by
    simp only [List.map_cons, List.nodup_cons] at h
    simp only [dictAdd]
    split
    · simp only [List.map_cons, List.nodup_cons]
      exact h
    · rename_i hne
      simp only [List.map_cons, List.nodup_cons]
      refine ⟨?_, dictAdd_nodup_keys k v rest h.2⟩
      intro hmem
      rcases dictAdd_key_mem k v rest k2 hmem with h2 | h2
      · exact h.1 h2
      · exact hne h2

theorem rhsesAdd_inner_nodup (sym factor : Str) (coeff : Int) :
    ∀ m : Rhses, (∀ p ∈ m, (p.2.map Prod.fst).Nodup) →
      ∀ p ∈ rhsesAdd m sym factor coeff, (p.2.map Prod.fst).Nodup
  | [], _, p, hp => by
    simp only [rhsesAdd, List.mem_singleton] at hp
    subst hp
    simp [dictAdd]
  | (s2, t2) :: rest, h, p, hp => by
    simp only [rhsesAdd] at hp
    split at hp
    · rcases List.mem_cons.mp hp with hp | hp
      · subst hp
        exact dictAdd_nodup_keys factor coeff t2 (h (s2, t2) (List.mem_cons_self _ _))
      · exact h p (List.mem_cons_of_mem _ hp)
    · rcases List.mem_cons.mp hp with hp | hp
      · subst hp
        exact h (s2, t2) (List.mem_cons_self _ _)
      · exact rhsesAdd_inner_nodup sym factor coeff rest
          (fun q hq => h q (List.mem_cons_of_mem _ hq)) p hp

theorem foldRhsesAdd_inner_nodup (factor : Str) (g : Trm → Int) :
    ∀ (ts : List Trm) (m : Rhses), (∀ p ∈ m, (p.2.map Prod.fst).Nodup) →
      ∀ p ∈ ts.foldl (fun acc t => rhsesAdd acc t.1 factor (g t)) m, (p.2.map Prod.fst).Nodup
  | [], m, h => h
  | t :: ts, m, h => by
    simp only [List.foldl_cons]
    exact foldRhsesAdd_inner_nodup factor g ts _ (rhsesAdd_inner_nodup t.1 factor (g t) m h)

theorem reactStep_inner_nodup (m : Rhses) (r : Reaction)
    (h : ∀ p ∈ m, (p.2.map Prod.fst).Nodup) :
    ∀ p ∈ reactStep m r, (p.2.map Prod.fst).Nodup := by
  unfold reactStep
  exact foldRhsesAdd_inner_nodup (factorOf r.1) (fun t => (t.2 : Int) * 1) r.2 _
    (foldRhsesAdd_inner_nodup (factorOf r.1) (fun t => -(t.2 : Int) * 1) r.1 m h)

theorem buildRhses_inner_nodup_aux :
    ∀ (rs : List Reaction) (m : Rhses), (∀ p ∈ m, (p.2.map Prod.fst).Nodup) →
      ∀ p ∈ rs.foldl reactStep m, (p.2.map Prod.fst).Nodup
  | [], m, h => h
  | r :: rs, m, h => by
    simp only [List.foldl_cons]
    exact buildRhses_inner_nodup_aux rs (reactStep m r) (reactStep_inner_nodup m r h)

/-! ### Error propagation of blank lines -/

theorem parse_equation_blank : parse_equation [] = .error .missingArrow := rfl

theorem mapExcept_blank_err :
    ∀ lines : List Str, [] ∈ lines → ∃ e, mapExcept parse_equation lines = .error e
  | [], h => absurd h (List.not_mem_nil _)
  | l :: rest, h => by
    rcases hl : parse_equation l with e | y
    · exact ⟨e, by simp only [mapExcept, hl]; rfl⟩
    · have hmem : ([] : Str) ∈ rest := by
        rcases List.mem_cons.mp h with h1 | h1
        · subst h1
          rw [parse_equation_blank] at hl
          exact Except.noConfusion hl
        · exact h1
      obtain ⟨e, he⟩ := mapExcept_blank_err rest hmem
      exact ⟨e, by simp only [mapExcept, hl, he]; rfl⟩

/-! ### Shape of `parse_equation` by arrow kind -/

theorem parse_equation_rev (s : Str) (hrev : containsSub arrowRev s = true) :
    parse_equation s =
      match splitFirst arrowRev s with
      | none => .error .missingArrow
      | some (l, r) => do
          let src ← parse_complex l
          let dst ← parse_complex r
          return [(src, dst), (dst, src)] := by
  unfold parse_equation
  rw [hrev]
  rfl

theorem parse_equation_fwd (s : Str) (hrev : containsSub arrowRev s = false) :
    parse_equation s =
      match splitFirst arrowFwd s with
      | none => .error .missingArrow
      | some (l, r) => do
          let src ← parse_complex l
          let dst ← parse_complex r
          return [(src, dst)] := by
  unfold parse_equation
  rw [hrev]
  rfl

/-- Equality of embedded parse results is decidable, so concrete runs of the
pipeline can be checked by evaluation. -/
instance {ε α : Type} [DecidableEq ε] [DecidableEq α] : DecidableEq (Except ε α) := fun x y =>
  match x, y with
  | .error a, .error b =>
    if h : a = b then .isTrue (congrArg Except.error h)
    else .isFalse (fun hh => h (by cases hh; rfl))
  | .error _, .ok _ => .isFalse (fun hh => Except.noConfusion hh)
  | .ok _, .error _ => .isFalse (fun hh => Except.noConfusion hh)
  | .ok a, .ok b =>
    if h : a = b then .isTrue (congrArg Except.ok h)
    else .isFalse (fun hh => h (by cases hh; rfl))

/-- Unpacking a successful two-complex parse followed by a pure wrap-up: the
complexes of the result are exactly the parses of the two sides. -/
theorem bind2_ok (el er : Str) (w : Cplx → Cplx → List Reaction) (res : List Reaction)
    (h : (do
        let src ← parse_complex el
        let dst ← parse_complex er
        pure (w src dst) : Except Err (List Reaction)) = .ok res) :
    ∃ a b, parse_complex el = .ok a ∧ parse_complex er = .ok b ∧ res = w a b := by
  rcases hl : parse_complex el with e | src
  · rw [hl] at h
    replace h : (Except.error e : Except Err (List Reaction)) = .ok res := h
    exact absurd h (fun hh => Except.noConfusion hh)
  · rw [hl] at h
    rcases hr : parse_complex er with e | dst
    · rw [hr] at h
      replace h : (Except.error e : Except Err (List Reaction)) = .ok res := h
      exact absurd h (fun hh => Except.noConfusion hh)
    · rw [hr] at h
      replace h : (Except.ok (w src dst) : Except Err (List Reaction)) = .ok res := h
      injection h with h2
      exact ⟨src, dst, rfl, rfl, h2.symm⟩

/-! ### The claims -/

/-- C1: the code does not emit rate-constant labels. At the input
`["a + c -> d"]` the rendered derivative of `d` is the single term `(a c)` and
the derivatives of `a` and `c` are each the single term `-1*(a c)`: the
claimed labels `k0(a c)` / `-k0(a c)` never appear (the source fixes the rate
constant to the number 1, with an `XXX fill in` comment). -/
theorem C1_rate_constant_label_missing :
    pipeline [("a + c -> d".data)] =
      .ok (("a + c -> d".data),
           ("da/dt = -1*(a c)\ndc/dt = -1*(a c)\ndd/dt = (a c)".data))
    ∧ containsSub ("k0".data)
        ("da/dt = -1*(a c)\ndc/dt = -1*(a c)\ndd/dt = (a c)".data) = false := by
  constructor
  · decide
  · decide

/-- C2 counterexample: for input `["a -> a"]` the species `a`, which occurs in
both src and dst of the one reaction, yields zero rendered terms (the two
contributions cancel inside the accumulator), not two separate terms; and for
`["a -> b", "a -> c"]` the two reactions render the identical propensity
factor `(a)` and their contributions to `a` are combined into the single term
with coefficient `-2`, not two independent terms. -/
theorem C2_counterexample :
    (parse_CRN [("a -> a".data)]).map
        (fun rs => (buildRhses rs).map fun p => (p.1, lineItems p.2)) =
      .ok [(("a".data), [])]
    ∧ (parse_CRN [("a -> b".data), ("a -> c".data)]).map
        (fun rs => (buildRhses rs).map fun p => (p.1, lineItems p.2)) =
      .ok [(("a".data), [(("(a)".data), -2)]),
           (("b".data), [(("(a)".data), 1)]),
           (("c".data), [(("(a)".data), 1)])] := by
  constructor
  · decide
  · decide

/-- C2 amended: occurrences do not contribute independent textual terms;
instead the signed coefficients are accumulated per (species, factor-string)
pair: every species' accumulator holds at most one entry per factor string, so
a species occurring in both src and dst of one reaction gets one merged term
(none when the sum is zero, as for `["a -> a"]`), and structurally identical
factor strings arising from different reactions are combined into one term
(as for `["a -> b", "a -> c"]`). -/
theorem C2_amended :
    (∀ rs : List Reaction, ∀ p ∈ buildRhses rs, (p.2.map Prod.fst).Nodup)
    ∧ pipeline [("a -> a".data)] = .ok (("a -> a".data), ("da/dt = ".data))
    ∧ pipeline [("a -> b".data), ("a -> c".data)] =
        .ok (("a -> b\na -> c".data), ("da/dt = -2*(a)\ndb/dt = (a)\ndc/dt = (a)".data)) := by
  refine ⟨?_, by decide, by decide⟩
  intro rs
  exact buildRhses_inner_nodup_aux rs [] (by intro p hp; exact absurd hp (List.not_mem_nil p))

theorem C2_amended_witness :
    (([(("(a)".data), (0 : Int))].map Prod.fst).Nodup) :=
  C2_amended.1 [([(("a".data), 1)], [(("a".data), 1)])]
    ((("a".data)), [(("(a)".data), (0 : Int))]) (by decide)

/-- C3 counterexample: for input `["2a -> b", "10a -> c"]` the sorted reaction
sequence puts `2a -> b` at index 0 (factor `(a^2)`) and `10a -> c` at index 1
(factor `(a^10)`), yet in the rendered derivative of `a` the term of reaction
1, `-10*(a^10)`, precedes the term of reaction 0, `-2*(a^2)`: terms are not in
ascending order of the originating reaction's index. -/
theorem C3_counterexample :
    parse_CRN [("2a -> b".data), ("10a -> c".data)] =
      .ok [([(("a".data), 2)], [(("b".data), 1)]), ([(("a".data), 10)], [(("c".data), 1)])]
    ∧ factorOf [(("a".data), 2)] = ("(a^2)".data)
    ∧ factorOf [(("a".data), 10)] = ("(a^10)".data)
    ∧ pipeline [("2a -> b".data), ("10a -> c".data)] =
      .ok (("2a -> b\n10a -> c".data),
           ("da/dt = -10*(a^10) + -2*(a^2)\ndb/dt = (a^2)\ndc/dt = (a^10)".data)) := by
  refine ⟨by decide, by decide, by decide, by decide⟩

/-- C3 amended: within one species' rendered derivative line there is at most
one term per distinct factor string, and the items appear in ascending
lexicographic order of their `(factor string, coefficient)` pairs — not in
reaction-index order. -/
theorem C3_amended :
    ∀ terms : List (Str × Int),
      (lineItems terms).Pairwise (fun p q => factLeB p q = true) := by
  intro terms
  exact List.Pairwise.sublist (List.filter_sublist _)
    (pairwise_isort factLeB factLeB_trans factLeB_total terms)

/-- C4 counterexample: a blank line is not skipped: parsing the single blank
line fails with MissingArrow instead of producing an empty network, and a
blank line after a well-formed line aborts the whole parse. -/
theorem C4_counterexample :
    parse_CRN [([] : Str)] = .error .missingArrow
    ∧ parse_CRN [("a -> b".data), ([] : Str)] = .error .missingArrow := by
  constructor
  · decide
  · decide

/-- C4 amended: parse_CRN applies parse_equation to every line, blank lines
included; a blank line is never ignored — any list of input lines containing a
blank line fails to parse (the blank line itself raising MissingArrow). -/
theorem C4_amended :
    ∀ lines : List Str, [] ∈ lines → (parse_CRN lines).isOk = false := by
  intro lines h
  obtain ⟨e, he⟩ := mapExcept_blank_err lines h
  simp only [parse_CRN, he]
  rfl

theorem C4_amended_witness : (parse_CRN [([] : Str)]).isOk = false :=
  C4_amended [[]] (List.mem_singleton.mpr rfl)

/-- C5 counterexample: a term whose leading digit run denotes 0 is not a parse
error: `parse_term "0a"` succeeds, returning species `a` with coefficient 0. -/
theorem C5_counterexample :
    parse_term ("0a".data) = .ok (("a".data), 0) := by decide

/-- C5 amended: a leading digit run denoting 0 is accepted, so a successfully
parsed Term's coefficient may be any natural number including 0; what every
successfully parsed Term does have is a nonempty species (a missing species is
the only parse error of parse_term). -/
theorem C5_amended :
    (∀ (s sp : Str) (c : Nat), parse_term s = .ok (sp, c) → sp ≠ [])
    ∧ parse_term ("0a".data) = .ok (("a".data), 0) := by
  refine ⟨?_, by decide⟩
  intro s sp c h
  replace h :
      (if (pyStrip s).dropWhile Char.isDigit = [] then (.error .malformedTerm : Except Err Trm)
       else .ok ((pyStrip s).dropWhile Char.isDigit,
         if (pyStrip s).takeWhile Char.isDigit = [] then 1
         else digitsVal ((pyStrip s).takeWhile Char.isDigit))) = .ok (sp, c) := h
  by_cases hd : (pyStrip s).dropWhile Char.isDigit = []
  · rw [if_pos hd] at h
    exact absurd h (fun hh => Except.noConfusion hh)
  · rw [if_neg hd] at h
    injection h with h2
    injection h2 with h3 h4
    intro heq
    exact hd (h3.trans heq)

theorem C5_amended_witness : ("a".data) ≠ ([] : Str) :=
  C5_amended.1 ("0a".data) ("a".data) 0 (by decide)

/-- C6 counterexample: a term with coefficient other than 1 renders with the
coefficient first — `mul "(a)" 2` is `"2*(a)"`, not the claimed
`"factor*n"` form `"(a)*2"`. -/
theorem C6_counterexample :
    mul ("(a)".data) 2 = ("2*(a)".data) ∧ mul ("(a)".data) 2 ≠ ("(a)*2".data) := by
  constructor
  · decide
  · decide

/-- C6 amended: a term with coefficient 1 renders as the factor alone, and a
term with any other coefficient renders as the decimal rendering of the signed
coefficient, then `*`, then the factor (`"n*factor"`), the sign appearing as
the leading `-` of the rendered coefficient; illustrated on the `p2` example
network of the source, whose doctest output the embedding reproduces. -/
theorem C6_amended :
    (∀ s : Str, mul s 1 = s)
    ∧ (∀ (s : Str) (n : Int), n ≠ 1 → mul s n = intStr n ++ ('*' :: s))
    ∧ pipeline [("x + y -> 2z".data), ("z + x -> 2x".data), ("z + y -> 2y".data)] =
        .ok (("x + y -> 2z\nx + z -> 2x\ny + z -> 2y".data),
             ("dx/dt = -1*(x y) + (x z)\ndy/dt = -1*(x y) + (y z)\ndz/dt = 2*(x y) + -1*(x z) + -1*(y z)".data)) := by
  refine ⟨fun s => by simp [mul], fun s n hn => by simp [mul, hn], by decide⟩

theorem C6_amended_witness :
    mul ("(a)".data) (-1) = intStr (-1) ++ ('*' :: ("(a)".data)) :=
  C6_amended.2.1 ("(a)".data) (-1) (by decide)

/-- C7: whenever parse_equation succeeds on a line, the line is split at the
first occurrence of the preferred arrow (`<->` when present, else `->`) into a
left side `A` and a right side `B`, and the result is exactly the two directed
reactions `(A, B)` and `(B, A)` for a `<->` line, respectively exactly the one
directed reaction `(A, B)` for a `->` line, where `A` and `B` are the parses
of the two sides. -/
theorem C7_arrow_expansion :
    ∀ (s : Str) (res : List Reaction), parse_equation s = .ok res →
      (containsSub arrowRev s = true →
        ∃ (l r : Str) (a b : Cplx), splitFirst arrowRev s = some (l, r)
          ∧ parse_complex l = .ok a ∧ parse_complex r = .ok b
          ∧ res = [(a, b), (b, a)])
      ∧ (containsSub arrowRev s = false →
        ∃ (l r : Str) (a b : Cplx), splitFirst arrowFwd s = some (l, r)
          ∧ parse_complex l = .ok a ∧ parse_complex r = .ok b
          ∧ res = [(a, b)]) := by
  intro s res h
  constructor
  · intro hrev
    rw [parse_equation_rev s hrev] at h
    rcases hsp : splitFirst arrowRev s with _ | ⟨l, r⟩ <;> rw [hsp] at h
    · replace h : (Except.error Err.missingArrow : Except Err (List Reaction)) = .ok res := h
      exact absurd h (fun hh => Except.noConfusion hh)
    · replace h : (do
          let src ← parse_complex l
          let dst ← parse_complex r
          pure [(src, dst), (dst, src)] : Except Err (List Reaction)) = .ok res := h
      obtain ⟨a, b, hl, hr, hres⟩ := bind2_ok l r (fun a b => [(a, b), (b, a)]) res h
      exact ⟨l, r, a, b, rfl, hl, hr, hres⟩
  · intro hrev
    rw [parse_equation_fwd s hrev] at h
    rcases hsp : splitFirst arrowFwd s with _ | ⟨l, r⟩ <;> rw [hsp] at h
    · replace h : (Except.error Err.missingArrow : Except Err (List Reaction)) = .ok res := h
      exact absurd h (fun hh => Except.noConfusion hh)
    · replace h : (do
          let src ← parse_complex l
          let dst ← parse_complex r
          pure [(src, dst)] : Except Err (List Reaction)) = .ok res := h
      obtain ⟨a, b, hl, hr, hres⟩ := bind2_ok l r (fun a b => [(a, b)]) res h
      exact ⟨l, r, a, b, rfl, hl, hr, hres⟩

theorem C7_witness :
    ∃ (l r : Str) (a b : Cplx),
      splitFirst arrowRev ("a <-> b".data) = some (l, r)
      ∧ parse_complex l = .ok a ∧ parse_complex r = .ok b
      ∧ ([([(("a".data), 1)], [(("b".data), 1)]), ([(("b".data), 1)], [(("a".data), 1)])] :
          List Reaction) = [(a, b), (b, a)] :=
  (C7_arrow_expansion ("a <-> b".data)
      [([(("a".data), 1)], [(("b".data), 1)]), ([(("b".data), 1)], [(("a".data), 1)])]
      (by decide)).1 (by decide)

/-- C8: parse_term trims surrounding whitespace and fails with MalformedTerm
exactly when no species characters remain after the leading digit run;
otherwise it returns that non-digit remainder as the species with the value of
the leading digit run as the coefficient, defaulting to 1 when the run is
empty. In particular the line `"3 -> b"` fails with MalformedTerm because the
term `"3"` has no species. -/
theorem C8_parse_term_spec :
    (∀ s : Str, parse_term s = .error .malformedTerm ↔
      (pyStrip s).dropWhile Char.isDigit = [])
    ∧ (∀ (s sp : Str) (c : Nat), parse_term s = .ok (sp, c) →
        sp = (pyStrip s).dropWhile Char.isDigit
        ∧ c = (if (pyStrip s).takeWhile Char.isDigit = [] then 1
               else digitsVal ((pyStrip s).takeWhile Char.isDigit)))
    ∧ parse_equation ("3 -> b".data) = .error .malformedTerm := by
  refine ⟨?_, ?_, by decide⟩
  · intro s
    constructor
    · intro h
      replace h :
          (if (pyStrip s).dropWhile Char.isDigit = []
           then (.error .malformedTerm : Except Err Trm)
           else .ok ((pyStrip s).dropWhile Char.isDigit,
             if (pyStrip s).takeWhile Char.isDigit = [] then 1
             else digitsVal ((pyStrip s).takeWhile Char.isDigit))) = .error .malformedTerm := h
      by_cases hd : (pyStrip s).dropWhile Char.isDigit = []
      · exact hd
      · rw [if_neg hd] at h
        exact absurd h (fun hh => Except.noConfusion hh)
    · intro hd
      show (if (pyStrip s).dropWhile Char.isDigit = []
            then (.error .malformedTerm : Except Err Trm)
            else .ok ((pyStrip s).dropWhile Char.isDigit,
              if (pyStrip s).takeWhile Char.isDigit = [] then 1
              else digitsVal ((pyStrip s).takeWhile Char.isDigit))) = .error .malformedTerm
      rw [if_pos hd]
  · intro s sp c h
    replace h :
        (if (pyStrip s).dropWhile Char.isDigit = []
         then (.error .malformedTerm : Except Err Trm)
         else .ok ((pyStrip s).dropWhile Char.isDigit,
           if (pyStrip s).takeWhile Char.isDigit = [] then 1
           else digitsVal ((pyStrip s).takeWhile Char.isDigit))) = .ok (sp, c) := h
    by_cases hd : (pyStrip s).dropWhile Char.isDigit = []
    · rw [if_pos hd] at h
      exact absurd h (fun hh => Except.noConfusion hh)
    · rw [if_neg hd] at h
      injection h with h2
      injection h2 with h3 h4
      exact ⟨h3.symm, h4.symm⟩

theorem C8_witness :
    ("ab".data) = (pyStrip (" 12ab ".data)).dropWhile Char.isDigit
    ∧ 12 = (if (pyStrip (" 12ab ".data)).takeWhile Char.isDigit = [] then 1
            else digitsVal ((pyStrip (" 12ab ".data)).takeWhile Char.isDigit)) :=
  C8_parse_term_spec.2.1 (" 12ab ".data) ("ab".data) 12 (by decide)

/-- C9: the whole pipeline is a pure function of its input lines, so parsing
the same input text twice yields byte-identical network and rate-equation
renderings. -/
theorem C9_deterministic :
    ∀ lines1 lines2 : List Str, lines1 = lines2 → pipeline lines1 = pipeline lines2 := by
  intro l1 l2 h
  rw [h]

theorem C9_witness :
    pipeline [("a + c <-> d".data)] = pipeline [("a + c <-> d".data)] :=
  C9_deterministic [("a + c <-> d".data)] [("a + c <-> d".data)] rfl

/-- C10: a (species, factor-string) pair whose accumulated signed coefficients
sum to zero is dropped from the output: each species line emits exactly one
item per accumulated entry with nonzero coefficient, and for input
`["a -> a"]` the line of `a` renders as `da/dt = ` with an empty right-hand
side. -/
theorem C10_zero_sum_dropped :
    (∀ terms : List (Str × Int),
      (lineItems terms).length = (terms.filter fun p => p.2 != 0).length)
    ∧ pipeline [("a -> a".data)] = .ok (("a -> a".data), ("da/dt = ".data)) := by
  refine ⟨?_, by decide⟩
  intro terms
  exact ((perm_isort factLeB terms).filter fun p => p.2 != 0).length_eq

end CRN
